import Mathlib

/-!
Verification of the PodcastScraper repository against its specification.

The program is embedded shallowly: Python strings become `List Char`,
Python dicts become association lists or explicit structures, and the
stateful parts of `rss_feed.py` become pure functions from their inputs
(manifest status, file-system state, fetch outcomes) to their effects
(outcome, written document, committed manifest entry).  Python text
primitives (`str.split`, `str.strip`, `str.lower`, `"x" in s`,
`s.split(sep)`, `re` searches for the literal patterns the code uses)
are modelled by executable Lean functions defined below; `str.lower`
and `re.IGNORECASE` are modelled on the ASCII alphabet, and
`str.split()`/`str.strip()` on the ASCII whitespace characters, which
covers every character class the scraped titles and markers use.
-/

/-- ASCII whitespace, the model of the character class Python
`str.split()` / `str.strip()` split and trim on. -/
def isWs (c : Char) : Bool :=
  c = ' ' || c = '\t' || c = '\n' || c = '\r' || c = '\x0b' || c = '\x0c'

/-- The apostrophe character, written by code point to keep it out of the
source text. -/
def apostropheChar : Char := Char.ofNat 39

/-- The double-quote character, written by code point. -/
def quoteChar : Char := Char.ofNat 34

/-- The Hebrew geresh removed by `normalize_title` (cleanup_data.py line 12). -/
def gereshChar : Char := '׳'

/-- The uppercase-to-lowercase table: the ASCII model of Python `str.lower`. -/
def lowerPairs : List (Char × Char) :=
  [('A', 'a'), ('B', 'b'), ('C', 'c'), ('D', 'd'), ('E', 'e'), ('F', 'f'),
   ('G', 'g'), ('H', 'h'), ('I', 'i'), ('J', 'j'), ('K', 'k'), ('L', 'l'),
   ('M', 'm'), ('N', 'n'), ('O', 'o'), ('P', 'p'), ('Q', 'q'), ('R', 'r'),
   ('S', 's'), ('T', 't'), ('U', 'u'), ('V', 'v'), ('W', 'w'), ('X', 'x'),
   ('Y', 'y'), ('Z', 'z')]

/-- Lowercase one character (ASCII model of Python `str.lower`). -/
def lowerChar (c : Char) : Char := (List.lookup c lowerPairs).getD c

/-- Python `s.strip()`: drop leading and trailing whitespace. -/
def pyStrip (s : List Char) : List Char :=
  ((s.dropWhile isWs).reverse.dropWhile isWs).reverse

/-- Split a character list at every character satisfying `p`, keeping empty
chunks, as Python `s.split(sep)` does for a one-character separator. -/
def splitP (p : Char → Bool) : List Char → List (List Char)
  | [] => [[]]
  | c :: rest =>
    if p c then [] :: splitP p rest
    else
      match splitP p rest with
      | t :: ts => (c :: t) :: ts
      | [] => [[c]]

/-- Python `s.split()` with no argument: whitespace-delimited words, empty
chunks dropped. -/
def splitWords (s : List Char) : List (List Char) :=
  (splitP isWs s).filter (fun w => !w.isEmpty)

/-- Python `sep.join(parts)` for a one-character separator. -/
def pyJoin (sep : Char) : List (List Char) → List Char
  | [] => []
  | [w] => w
  | w :: ws => w ++ sep :: pyJoin sep ws

/-- The characters `normalize_title` strips first
(cleanup_data.py line 12: the geresh and the apostrophe). -/
def strippedQuoteChars : List Char := [gereshChar, apostropheChar]

/-- The filesystem-unsafe characters removed by `normalize_title`
(cleanup_data.py line 14) and `_clean_filename` (rss_feed.py line 59):
backslash, slash, star, question mark, colon, double quote, angle
brackets, pipe. -/
def unsafeFileChars : List Char :=
  ['\\', '/', '*', '?', ':', quoteChar, '<', '>', '|']

/-- The function `normalize_title` from cleanup_data.py lines 8-16.  `none` models a
Python `None` argument; both `None` and the empty string fall into the
`if not t` branch.  The two `replace` calls and the `re.sub` over the
unsafe-character class are character filters; then
`" ".join(t.split()).strip().lower()`. -/
def normalizeTitle (t : Option (List Char)) : List Char :=
  match t with
  | none => []
  | some s =>
    if s.isEmpty then []
    else
      let s1 := s.filter (fun c => !strippedQuoteChars.contains c)
      let s2 := s1.filter (fun c => !unsafeFileChars.contains c)
      (pyStrip (pyJoin ' ' (splitWords s2))).map lowerChar

/-- The index of the first occurrence of `pat` in `hay`, or `none`:
the model of a Python substring search (`s.find`, `pat in s`, and the
`re` searches the code performs for literal, escaped patterns). -/
def findSubstrIdx (pat : List Char) : List Char → Option Nat
  | [] => if pat.isPrefixOf [] then some 0 else none
  | c :: rest =>
    if pat.isPrefixOf (c :: rest) then some 0
    else (findSubstrIdx pat rest).map (· + 1)

/-- Python `pat in hay` for strings. -/
def listContains (hay pat : List Char) : Bool := (findSubstrIdx pat hay).isSome

/-- Everything after the first occurrence of `pat` (empty when absent;
the program only uses it under a containment guard). -/
def afterFirst (pat s : List Char) : List Char :=
  match findSubstrIdx pat s with
  | some i => s.drop (i + pat.length)
  | none => []

/-- Everything before the first occurrence of `pat` (the whole list when
absent), as Python `s.split(pat)[0]`. -/
def beforeFirst (pat s : List Char) : List Char :=
  match findSubstrIdx pat s with
  | some i => s.take i
  | none => s

/-! ## The cleanup pass (cleanup_data.py) -/

/-- A manifest episode entry as `cleanup` reads it: the fields
`cleanup_data.py` accesses on `episodes[eid]`. -/
structure CEntry where
  title : List Char
  has_description : Bool
  has_transcript : Bool
  last_updated : List Char
deriving DecidableEq

/-- The distinct elements of a list, keeping the last occurrence of each:
the model of building a Python `set` from a list (only cardinality and
membership of the result are ever used). -/
def dedupLast {α : Type} [DecidableEq α] : List α → List α
  | [] => []
  | x :: xs => if xs.contains x then dedupLast xs else x :: dedupLast xs

/-- The word set of a title as the cleanup pass builds it
(cleanup_data.py lines 37-38: `set(normalize_title(t).split())`),
as its list of distinct words. -/
def wordSet (t : List Char) : List (List Char) :=
  dedupLast (splitWords (normalizeTitle (some t)))

/-- The quantity `len(t1_words & t2_words)` (cleanup_data.py line 54): the size of
the intersection of the two word sets. -/
def overlapCount (t1 t2 : List Char) : Nat :=
  ((wordSet t1).filter (fun w => (wordSet t2).contains w)).length

/-- The overlap score of two titles (cleanup_data.py lines 54-55):
`overlap / min(len(A), len(B))`.  Python computes this with exact small
integers and float division; the rational value decides the `> 0.5`
comparison identically. -/
def scoreQ (t1 t2 : List Char) : ℚ :=
  (overlapCount t1 t2 : ℚ) / ((min (wordSet t1).length (wordSet t2).length : ℕ) : ℚ)

/-- Whether the scan claims `t2` into the cluster seeded by `t1`
(cleanup_data.py lines 51-57): empty word sets are skipped, otherwise
the pair is merged when the overlap score exceeds 0.5.  The comparison
`overlap / min > 1/2` is computed as `min < 2 * overlap`, which is
equivalent since both word sets are nonempty here; the lemma
`matchTitles_iff_score` below proves that equivalence against `scoreQ`. -/
def matchTitles (t1 t2 : List Char) : Bool :=
  !(wordSet t1).isEmpty && !(wordSet t2).isEmpty &&
    decide (min (wordSet t1).length (wordSet t2).length < 2 * overlapCount t1 t2)

/-- One pass of the grouping loop (cleanup_data.py lines 32-59), fuelled
by the input length: each still-unclaimed entry seeds a cluster and
claims every later unclaimed entry whose title matches the seed.
Claiming an entry removes it from further consideration, so the loop is
the repeated partition below; the fuel equals the input length, which
the recursion never exhausts since each step consumes the seed. -/
def cleanupGroupsGo : Nat → List (List Char × CEntry) → List (List (List Char × CEntry))
  | _, [] => []
  | 0, _ :: _ => []
  | fuel + 1, e :: rest =>
    let cl := rest.partition (fun e2 => matchTitles e.2.title e2.2.title)
    (e :: cl.1) :: cleanupGroupsGo fuel cl.2

/-- The clusters the cleanup pass forms, in discovery order. -/
def cleanupGroups (l : List (List Char × CEntry)) : List (List (List Char × CEntry)) :=
  cleanupGroupsGo l.length l

/-- The id marker of a fallback-source (substack) entry
(cleanup_data.py line 63: `eid.startswith("substack:")`). -/
def substackTag : List Char := "substack:".data

/-- Canonical id selection for a cluster (cleanup_data.py lines 62-64):
the first member id that does not start with the substack marker, else
the first member id.  The empty-cluster branch never arises (clusters
always carry their seed); it returns the empty id. -/
def bestEid (g : List (List Char × CEntry)) : List Char :=
  match g.filter (fun p => !(substackTag.isPrefixOf p.1)) with
  | x :: _ => x.1
  | [] =>
    match g with
    | y :: _ => y.1
    | [] => []

/-- The decorative marker the title selection avoids
(cleanup_data.py line 75: `t.startswith("🧠")`). -/
def brainMarker : List Char := "🧠".data

/-- One step of the title-selection loop (cleanup_data.py lines 74-76):
`if not t.startswith("🧠") and len(t) > len(best_title): best_title = t`. -/
def titleStep (best t : List Char) : List Char :=
  if !(brainMarker.isPrefixOf t) && best.length < t.length then t else best

/-- Title selection for a cluster (cleanup_data.py lines 72-76): start
from the first member title, replace it by any title that does not
start with the marker and is strictly longer than the current best. -/
def bestTitle (titles : List (List Char)) : List Char :=
  match titles with
  | [] => []
  | t0 :: _ => titles.foldl titleStep t0

/-- Python string `<` on two strings: lexicographic by code point. -/
def lexLt : List Char → List Char → Bool
  | [], [] => false
  | [], _ :: _ => true
  | _ :: _, [] => false
  | a :: as, b :: bs => if a < b then true else if a = b then lexLt as bs else false

/-- Python `max` over a nonempty list of strings (cleanup_data.py
line 69); returns the empty string on an empty list, a case the code
never reaches. -/
def pyMaxStr (l : List (List Char)) : List Char :=
  match l with
  | [] => []
  | x :: xs => xs.foldl (fun a b => if lexLt a b then b else a) x

/-- The merged entry a cluster produces (cleanup_data.py lines 61-84):
preferred id, OR of the flags, max of the timestamps, best title. -/
structure MergedEntry where
  title : List Char
  clean_title : List Char
  has_description : Bool
  has_transcript : Bool
  last_updated : List Char
deriving DecidableEq

/-- Merge one cluster (cleanup_data.py lines 61-84). -/
def mergeGroup (g : List (List Char × CEntry)) : List Char × MergedEntry :=
  let t := bestTitle (g.map (fun p => p.2.title))
  (bestEid g,
   { title := t
     clean_title := t
     has_description := g.any (fun p => p.2.has_description)
     has_transcript := g.any (fun p => p.2.has_transcript)
     last_updated := pyMaxStr (g.map (fun p => p.2.last_updated)) })

/-- The consolidated episode map (cleanup_data.py lines 26-87), as the
association list of merged clusters in discovery order. -/
def cleanupEpisodes (l : List (List Char × CEntry)) : List (List Char × MergedEntry) :=
  (cleanupGroups l).map mergeGroup

/-- The character set of a normalized title with spaces removed — the
claimed character-level fallback (spec section 4.2; the formula appears in
the exploratory test_fuzzy.py script, not in the cleanup pass). -/
def specCharSet (t : List Char) : List Char :=
  dedupLast ((normalizeTitle (some t)).filter (fun c => c ≠ ' '))

/-- Character Jaccard score from the spec wording (section 4.2) and
test_fuzzy.py lines 62-67: intersection over union of the character
sets, zero when the union is empty. -/
def specCharScore (t1 t2 : List Char) : ℚ :=
  let u := (dedupLast (specCharSet t1 ++ specCharSet t2)).length
  if u = 0 then 0
  else (((specCharSet t1).filter (fun c => (specCharSet t2).contains c)).length : ℚ) / (u : ℚ)

/-- The effective pair score as the claim states it, following the
wording of spec section 4.2: `max(wordScore, 0.9 * charScore)` with
`wordScore = overlap / min`.  Declared for comparison with the score the
cleanup pass actually uses. -/
def specEffectiveScore (t1 t2 : List Char) : ℚ :=
  max (scoreQ t1 t2) ((9 : ℚ)/10 * specCharScore t1 t2)

/-! ## The scraper (rss_feed.py) and its configuration (config.py) -/

/-- config.py line 25. -/
def TRANSCRIPT_START_MARKER : List Char :=
  "This transcript was generated automatically. Its accuracy may vary.".data

/-- config.py line 26. -/
def TRANSCRIPT_END_MARKER : List Char := "More episodes like this".data

/-- config.py line 27. -/
def AVOID_PHRASES : List (List Char) := ["דובר או דוברת מס".data]

/-- The method `_clean_transcript` (rss_feed.py lines 82-94), with the markers and
avoid phrases as parameters in place of the `config` module globals.
The regex `re.escape(start) + "(.*?)" + re.escape(end)` with `DOTALL`
matches literal text: its leftmost match starts at the first occurrence
of the start marker and, non-greedily, ends at the first later
occurrence of the end marker (if the first start marker has no later
end marker then no later one has, so there is no match at all and the
result is empty).  The kept span is stripped, split into lines, lines
that strip to nothing or contain an avoid phrase are dropped, the rest
are stripped and rejoined. -/
def cleanTranscript (startM endM : List Char) (avoids : List (List Char))
    (raw : List Char) : List Char :=
  match findSubstrIdx startM raw with
  | none => []
  | some i =>
    let after := raw.drop (i + startM.length)
    match findSubstrIdx endM after with
    | none => []
    | some j =>
      let content := pyStrip (after.take j)
      let lines := splitP (fun c => c = '\n') content
      let kept := lines.filter
        (fun l => !(pyStrip l).isEmpty && avoids.all (fun a => !listContains l a))
      pyJoin '\n' (kept.map pyStrip)

/-- The first marker `_clean_description_text` removes (rss_feed.py
line 67, `re.sub` pattern alternative 1). -/
def showLessMarker : List Char := "Show less".data

/-- The second marker (rss_feed.py line 67, pattern alternative 2). -/
def seeLessHebrewMarker : List Char := "ראה פחות".data

/-- Case-insensitive prefix test, the ASCII model of matching a literal
pattern under `re.IGNORECASE`. -/
def ciStartsWith : List Char → List Char → Bool
  | [], _ => true
  | _ :: _, [] => false
  | a :: as, b :: bs => lowerChar a = lowerChar b && ciStartsWith as bs

/-- The `re.sub(r"Show less|ראה פחות", "", text, flags=IGNORECASE)` scan
(rss_feed.py line 67): walk left to right, delete either marker wherever
it matches, keep other characters.  Fuelled by the input length, which
the recursion never exhausts since each step consumes at least one
character. -/
def removeSpotifyMarkersGo : Nat → List Char → List Char
  | _, [] => []
  | 0, s => s
  | fuel + 1, s@(c :: rest) =>
    if ciStartsWith showLessMarker s then
      removeSpotifyMarkersGo fuel (s.drop showLessMarker.length)
    else if ciStartsWith seeLessHebrewMarker s then
      removeSpotifyMarkersGo fuel (s.drop seeLessHebrewMarker.length)
    else c :: removeSpotifyMarkersGo fuel rest

/-- See `removeSpotifyMarkersGo`. -/
def removeSpotifyMarkers (s : List Char) : List Char :=
  removeSpotifyMarkersGo s.length s

/-- The blank-line collapsing loop of `_clean_description_text`
(rss_feed.py lines 71-79): keep nonempty lines, keep a single empty line
between content, drop further consecutive empty lines.  The second
argument is the running `last_empty` flag. -/
def collapseEmpties : List (List Char) → Bool → List (List Char)
  | [], _ => []
  | l :: ls, lastEmpty =>
    if !l.isEmpty then l :: collapseEmpties ls false
    else if !lastEmpty then [] :: collapseEmpties ls true
    else collapseEmpties ls true

/-- The method `_clean_description_text` (rss_feed.py lines 63-80). -/
def cleanDescriptionText (raw : List Char) : List Char :=
  if raw.isEmpty then []
  else
    let text := removeSpotifyMarkers raw
    let lines := (splitP (fun c => c = '\n') text).map pyStrip
    pyStrip (pyJoin '\n' (collapseEmpties lines false))

/-- The URL schemes of the plain-text URL fallback regex
`https?://[^\s)\]]+` (rss_feed.py line 221). -/
def httpsScheme : List Char := "https://".data

/-- See `httpsScheme`. -/
def httpScheme : List Char := "http://".data

/-- A character ending a URL match in that regex: whitespace, a closing
parenthesis or a closing bracket. -/
def urlStop (c : Char) : Bool := isWs c || c = ')' || c = ']'

/-- The scan `re.findall` performs for that regex: scan left to right; at a position where
a scheme matches and at least one non-stop character follows, emit the
maximal match and continue after it, otherwise advance one character.
Fuelled by the input length, never exhausted since each step consumes at
least one character. -/
def pyFindUrlsGo : Nat → List Char → List (List Char)
  | _, [] => []
  | 0, _ :: _ => []
  | fuel + 1, s@(_ :: rest) =>
    if httpsScheme.isPrefixOf s then
      let body := (s.drop httpsScheme.length).takeWhile (fun c => !urlStop c)
      if !body.isEmpty then
        (httpsScheme ++ body) :: pyFindUrlsGo fuel (s.drop (httpsScheme.length + body.length))
      else pyFindUrlsGo fuel rest
    else if httpScheme.isPrefixOf s then
      let body := (s.drop httpScheme.length).takeWhile (fun c => !urlStop c)
      if !body.isEmpty then
        (httpScheme ++ body) :: pyFindUrlsGo fuel (s.drop (httpScheme.length + body.length))
      else pyFindUrlsGo fuel rest
    else pyFindUrlsGo fuel rest

/-- See `pyFindUrlsGo`. -/
def pyFindUrls (s : List Char) : List (List Char) := pyFindUrlsGo s.length s

/-- Insert into a list sorted by `lexLt`. -/
def insertSorted (x : List Char) : List (List Char) → List (List Char)
  | [] => [x]
  | y :: ys => if lexLt x y then x :: y :: ys else y :: insertSorted x ys

/-- Python `sorted` on strings: sort by code-point order. -/
def sortStrings (l : List (List Char)) : List (List Char) := l.foldr insertSorted []

/-- The marker filtering Spotify self-links (rss_feed.py line 222). -/
def spotifyDomain : List Char := "spotify.com".data

/-- The plain-text URL fallback for the Links section (rss_feed.py
lines 219-223): `sorted(list(set(u for u in urls if "spotify.com" not
in u)))`, one `- url` line each.  The Python `set` plus `sorted` yield
the sorted distinct URLs, modelled as dedup plus sort. -/
def urlFallbackLinks (text : List Char) : List Char :=
  let urls := pyFindUrls text
  let finals := sortStrings (dedupLast (urls.filter (fun u => !listContains u spotifyDomain)))
  pyJoin '\n' (finals.map (fun u => "- ".data ++ u))

/-- The `## Description` heading (rss_feed.py lines 147, 254). -/
def descHeading : List Char := "## Description".data

/-- The `## Links` heading (rss_feed.py lines 119, 150, 256). -/
def linksHeading : List Char := "## Links".data

/-- The `## Transcript` heading (rss_feed.py lines 153, 258). -/
def transHeading : List Char := "## Transcript".data

/-- A bare `##`, the delimiter ending a recovered section
(rss_feed.py lines 148, 151). -/
def sectionDelim : List Char := "##".data

/-- The recovery `existing_content.split(heading)[1].split("##")[0].strip()`
(rss_feed.py lines 148, 151), used under a containment guard.  Index
`[1]` of the split reaches to the second occurrence of the heading; a
following `split("##")[0]` cuts at the first later `##`, which is never
beyond the second heading occurrence (the heading itself starts with
`##`), so the composition below is the same text. -/
def recoverDelimited (heading s : List Char) : List Char :=
  pyStrip (beforeFirst sectionDelim (afterFirst heading s))

/-- The recovery `existing_content.split("## Transcript")[1].strip()` (rss_feed.py
line 154), used under a containment guard: index `[1]` reaches to the
second occurrence of the heading or, when there is only one, to the end
— the same as cutting the text after the first occurrence at the next
occurrence of the same heading. -/
def recoverTrailing (heading s : List Char) : List Char :=
  pyStrip (beforeFirst heading (afterFirst heading s))

/-- Document assembly (rss_feed.py lines 251-258): title heading,
published-date line, then each section only when its content is
nonempty. -/
def assembleContent (title published desc links trans : List Char) : List Char :=
  "# ".data ++ title ++ "\n\n".data ++
  "**Published Date:** ".data ++ published ++ "\n\n".data ++
  (if desc.isEmpty then [] else descHeading ++ '\n' :: desc ++ "\n\n".data) ++
  (if links.isEmpty then [] else linksHeading ++ '\n' :: links ++ "\n\n".data) ++
  (if trans.isEmpty then [] else transHeading ++ '\n' :: trans ++ "\n".data)

/-- The write condition (rss_feed.py line 244:
`if description_text or transcript_text`). -/
def writeHappens (desc trans : List Char) : Bool := !desc.isEmpty || !trans.isEmpty

/-- The flags of one manifest episode entry as `process_episode` reads
them (`manifest["episodes"].get(entry_id, {})` and `.get(flag, False)`,
rss_feed.py lines 112-115); `none` models an absent entry. -/
structure ManifestStatus where
  has_description : Bool
  has_transcript : Bool
deriving DecidableEq

/-- The `EpisodeEntry` helper (rss_feed.py lines 17-25): exactly the
four attributes its constructor sets. -/
structure EpisodeEntry where
  id : List Char
  title : List Char
  link : List Char
  published : List Char
deriving DecidableEq

/-- The accessor `entry.get(key, default)` for a boolean key (rss_feed.py lines
24-25, 267-268): `getattr(self, key, default)`.  `EpisodeEntry` defines
only `id`, `title`, `link` and `published`, so for the keys
`has_description` and `has_transcript` the attribute is always missing
and the default is always returned. -/
def EpisodeEntry.getBoolAttr (_e : EpisodeEntry) (_key : List Char) (default : Bool) : Bool :=
  default

/-- What the Spotify description block yields on success (rss_feed.py
lines 213-217): the container text and the pre-rendered link lines. -/
structure SpotifyData where
  text : List Char
  links : List Char
deriving DecidableEq

/-- The outcome of the two network fetches of one episode run: `none`
models a failure (exception, missing URL, or a falsy page result), which
the code catches and logs. -/
structure FetchEnv where
  spotify : Option SpotifyData
  transcript : Option (List Char)
deriving DecidableEq

/-- Which terminal branch `process_episode` took. -/
inductive SyncOutcome
  | skippedUpToDate
  | processed
deriving DecidableEq

/-- The manifest entry committed at rss_feed.py lines 265-270. -/
structure CommittedEntry where
  title : List Char
  has_description : Bool
  has_transcript : Bool
  last_updated : List Char
deriving DecidableEq

/-- The observable effect of one `process_episode` run. -/
structure EpisodeResult where
  outcome : SyncOutcome
  networkUsed : Bool
  written : Option (List Char)
  committed : Option CommittedEntry
deriving DecidableEq

/-- The fetch-decision flags (rss_feed.py lines 110-123):
`(fetch_desc, fetch_trans)` from the manifest flags and the on-disk
document state. -/
def fetchFlags (status : Option ManifestStatus) (fileExists : Bool)
    (content : List Char) : Bool × Bool :=
  let hasD := match status with | some st => st.has_description | none => false
  let hasT := match status with | some st => st.has_transcript | none => false
  if fileExists then
    (if !(listContains content linksHeading) || decide (content.length < 500) then true
     else !hasD,
     !hasT)
  else (true, true)

/-- The key string `has_description` (rss_feed.py line 267). -/
def hasDescKey : List Char := "has_description".data

/-- The key string `has_transcript` (rss_feed.py line 268). -/
def hasTransKey : List Char := "has_transcript".data

/-- The method `process_episode` (rss_feed.py lines 104-272) as a pure function of
the manifest status of this episode id, the on-disk document state, the
fetch outcomes and the clock.  The skip check comes first (lines
110-127, no browser context and no write).  Otherwise sections are
recovered from the existing file (lines 144-155), the description and
transcript fetches overwrite them only on success (lines 160-241), the
document is written when description or transcript text is nonempty
(lines 244-260), and the manifest entry is committed (lines 263-271). -/
def processEpisode (status : Option ManifestStatus) (fileExists : Bool)
    (content : List Char) (env : FetchEnv) (entry : EpisodeEntry)
    (now : List Char) : EpisodeResult :=
  let fd := (fetchFlags status fileExists content).1
  let ft := (fetchFlags status fileExists content).2
  if !fd && !ft then
    { outcome := .skippedUpToDate, networkUsed := false, written := none, committed := none }
  else
    let descExisting :=
      if fileExists && listContains content descHeading then recoverDelimited descHeading content
      else []
    let linksExisting :=
      if fileExists && listContains content linksHeading then recoverDelimited linksHeading content
      else []
    let transExisting :=
      if fileExists && listContains content transHeading then recoverTrailing transHeading content
      else []
    let dl :=
      if fd then
        match env.spotify with
        | some data =>
          (cleanDescriptionText data.text,
           if !data.links.isEmpty then data.links else urlFallbackLinks data.text)
        | none => (descExisting, linksExisting)
      else (descExisting, linksExisting)
    let transText :=
      if ft then
        match env.transcript with
        | some t => t
        | none => transExisting
      else transExisting
    { outcome := .processed
      networkUsed := true
      written :=
        if writeHappens dl.1 transText then
          some (assembleContent entry.title entry.published dl.1 dl.2 transText)
        else none
      committed := some
        { title := entry.title
          has_description := if fd then !dl.1.isEmpty else entry.getBoolAttr hasDescKey false
          has_transcript := if ft then !transText.isEmpty else entry.getBoolAttr hasTransKey false
          last_updated := now } }

/-- The persisted manifest shape (config.py line 9, rss_feed.py lines
45-51): the `episodes` mapping. -/
structure PManifest where
  episodes : List (List Char × CEntry)
deriving DecidableEq

/-- The method `_load_manifest` (rss_feed.py lines 45-51) as a function of whether
the manifest file exists and of the parse outcome (`none` models a
parse exception, which the code catches and logs): every failure path
falls through to `return {"episodes": {}}`. -/
def loadManifest (manifestExists : Bool) (parsed : Option PManifest) : PManifest :=
  if manifestExists then
    match parsed with
    | some m => m
    | none => { episodes := [] }
  else { episodes := [] }

/-! ## Concrete inputs used by the claim theorems and witnesses -/

/-- C1 failing input: the manifest already records a fetched
description, but not a transcript. -/
def c1Status : Option ManifestStatus :=
  some { has_description := true, has_transcript := false }

/-- C1 failing input: an on-disk document that passes the completeness
re-check of rss_feed.py line 119 (it contains `## Links` and is at
least 500 characters long) and carries a Description section. -/
def c1Content : List Char :=
  "# t\n\n## Description\nhello\n\n## Links\n".data ++ List.replicate 470 'x'

/-- C1 failing input: the discovered episode. -/
def c1Entry : EpisodeEntry :=
  { id := "vid1".data, title := "Ep Title".data,
    link := "https://youtu.be/vid1".data, published := "today".data }

/-- C1 failing input: the transcript fetch fails this run and the
description is not re-fetched. -/
def c1Env : FetchEnv := { spotify := none, transcript := none }

/-- C1 failing input: the commit timestamp. -/
def c1Now : List Char := "2026-01-01T00:00:00".data

/-- C3 input, first entry: seed title `a b`. -/
def c3e1 : List Char × CEntry := ("i1".data, ⟨"a b".data, false, false, "d".data⟩)

/-- C3 input, second entry: title `a` (claimed by the seed, score 1). -/
def c3e2 : List Char × CEntry := ("i2".data, ⟨"a".data, true, false, "d".data⟩)

/-- C3 input, third entry: title `b` (claimed by the seed, score 1,
but scoring 0 against `a`). -/
def c3e3 : List Char × CEntry := ("i3".data, ⟨"b".data, false, false, "d".data⟩)

/-- C3 input, fourth entry: title `a c` (score 1 against `a`, yet left
out of its cluster because it scores only 0.5 against the seed). -/
def c3e4 : List Char × CEntry := ("i4".data, ⟨"a c".data, false, false, "d".data⟩)

/-- The C3 counterexample input. -/
def c3Input : List (List Char × CEntry) := [c3e1, c3e2, c3e3, c3e4]

/-- C4 counterexample: a marker-bearing first title longer than every
other member title. -/
def c4MarkerTitle : List Char := "🧠abcdefgh".data

/-- C4 counterexample: a shorter marker-free member title. -/
def c4PlainTitle : List Char := "xy".data

/-- C5 witness input: one fallback-source member and one primary-source
member, the fallback one first. -/
def c5Fallback : List Char × CEntry := ("substack:post:1".data, ⟨"t".data, false, false, "d".data⟩)

/-- See `c5Fallback`. -/
def c5Primary : List Char × CEntry := ("yt1".data, ⟨"t2".data, true, false, "d".data⟩)

/-- See `c5Fallback`. -/
def c5Group : List (List Char × CEntry) := [c5Fallback, c5Primary]

/-- The example payload of spec section 8 (Transcript extraction). -/
def c6Raw : List Char :=
  "noise... START actual transcript line one\nדובר או דוברת מס 1: skip this\nline two END more noise".data

/-- The example start marker of spec section 8. -/
def c6Start : List Char := "START".data

/-- The example end marker of spec section 8. -/
def c6End : List Char := "END".data

/-- The example avoid phrase of spec section 8. -/
def c6Avoid : List (List Char) := ["דובר או דוברת מס".data]

/-- The extraction result spec section 8 requires. -/
def c6Expected : List Char := "actual transcript line one\nline two".data

/-- C8 witness input: both flags already true. -/
def c8Status : ManifestStatus := { has_description := true, has_transcript := true }

/-- C8 witness input: a document passing the completeness re-check. -/
def c8Content : List Char := "## Links".data ++ List.replicate 492 'y'

/-- C8 witness input: fetches that would succeed, showing they are
never consulted on the skip path. -/
def c8Env : FetchEnv :=
  { spotify := some { text := "tx".data, links := "l".data }, transcript := some "tr".data }

/-- C8 witness input: the discovered episode. -/
def c8Entry : EpisodeEntry :=
  { id := "vid2".data, title := "T".data, link := "u".data, published := "p".data }

/-- C8 witness input: the clock. -/
def c8Now : List Char := "2026-01-02T00:00:00".data

/-- C9 example input: title. -/
def c9Title : List Char := "Ep".data

/-- C9 example input: published date. -/
def c9Pub : List Char := "today".data

/-- C9 example input: a nonempty description. -/
def c9Desc : List Char := "hello world".data

/-- C9 example input: a nonempty links section. -/
def c9Links : List Char := "- https://a.example".data

/-- C9 example input: a nonempty transcript. -/
def c9Trans : List Char := "line".data

/-- C9 counterexample input: the Spotify fetch succeeds with link
lines but its container text cleans to empty, and the transcript fetch
fails. -/
def c9Env : FetchEnv :=
  { spotify := some { text := [], links := c9Links }, transcript := none }

/-- C2 witness input: a parsed manifest. -/
def c2SomeManifest : PManifest :=
  { episodes := [("yt1".data, ⟨"t".data, true, false, "d".data⟩)] }

/-! ## Claim theorems -/

/-- C2 counterexample: when the manifest file exists but parsing fails,
`_load_manifest` returns the empty manifest — the run silently proceeds
from `{"episodes": {}}` rather than surfacing the load error, refuting
the claim. -/
theorem c2_counterexample : loadManifest true none = { episodes := [] } := rfl

/-- C2 (amended): if the persisted manifest file exists and parses, the
run starts from the parsed manifest; if it exists but cannot be parsed,
the error is only logged and the run proceeds from the empty manifest,
exactly as on a missing file. -/
theorem c2_load_fallback :
    (∀ m : PManifest, loadManifest true (some m) = m) ∧
    loadManifest true none = { episodes := [] } ∧
    (∀ p : Option PManifest, loadManifest false p = { episodes := [] }) :=
  ⟨fun _ => rfl, rfl, fun _ => rfl⟩

/-- C2 witness: the amended behavior at a concrete parsed manifest. -/
theorem c2_load_fallback_witness : loadManifest true (some c2SomeManifest) = c2SomeManifest :=
  c2_load_fallback.1 c2SomeManifest

/-- C5: canonical id selection.  If the members of a cluster, filtered
to those whose id does not start with `substack:`, leave exactly one
primary-source member, that member id is chosen no matter where it
stands in the cluster; if every member is a fallback-source one, the
first member id is chosen. -/
theorem c5_canonical_id :
    (∀ (g : List (List Char × CEntry)) (x : List Char × CEntry),
      g.filter (fun p => !(substackTag.isPrefixOf p.1)) = [x] → bestEid g = x.1) ∧
    (∀ (y : List Char × CEntry) (rest : List (List Char × CEntry)),
      (y :: rest).filter (fun p => !(substackTag.isPrefixOf p.1)) = [] →
      bestEid (y :: rest) = y.1) := by
  constructor
  · intro g x h
    simp only [bestEid, h]
  · intro y rest h
    simp only [bestEid, h]

/-- C5 witness: the cluster `c5Group` lists the fallback member first,
yet the primary id `yt1` is chosen. -/
theorem c5_canonical_id_witness : bestEid c5Group = "yt1".data :=
  c5_canonical_id.1 c5Group c5Primary (by decide)

/-- C6: transcript extraction.  When the start marker is absent, or no
end marker follows the first start marker, extraction returns the empty
string rather than an error; and on the example payload of spec
section 8, with its markers and avoid phrase, it returns exactly
`actual transcript line one\nline two`. -/
theorem c6_transcript_extraction :
    (∀ raw : List Char, findSubstrIdx TRANSCRIPT_START_MARKER raw = none →
      cleanTranscript TRANSCRIPT_START_MARKER TRANSCRIPT_END_MARKER AVOID_PHRASES raw = []) ∧
    (∀ (raw : List Char) (i : Nat),
      findSubstrIdx TRANSCRIPT_START_MARKER raw = some i →
      findSubstrIdx TRANSCRIPT_END_MARKER (raw.drop (i + TRANSCRIPT_START_MARKER.length)) = none →
      cleanTranscript TRANSCRIPT_START_MARKER TRANSCRIPT_END_MARKER AVOID_PHRASES raw = []) ∧
    cleanTranscript c6Start c6End c6Avoid c6Raw = c6Expected := by
  refine ⟨?_, ?_, by decide⟩
  · intro raw h
    simp only [cleanTranscript, h]
  · intro raw i h1 h2
    simp only [cleanTranscript, h1, h2]

/-- C6 witness: a payload with no start marker extracts to empty. -/
theorem c6_transcript_extraction_witness :
    cleanTranscript TRANSCRIPT_START_MARKER TRANSCRIPT_END_MARKER AVOID_PHRASES "hello".data = [] :=
  c6_transcript_extraction.1 "hello".data (by decide)

set_option maxRecDepth 40000 in
/-- C1 (code bug): at the failing input — manifest flags
`has_description = true, has_transcript = false`, an on-disk document
passing the completeness re-check, a failing transcript fetch — the
description is not re-fetched this run, yet the committed manifest entry
has `has_description = false`: `entry.get("has_description", False)` at
rss_feed.py line 267 reads the `EpisodeEntry` object, which never
carries that attribute, so the stored flag regresses from true to
false. -/
theorem c1_flag_regression_eval :
    c1Status = some { has_description := true, has_transcript := false } ∧
    (fetchFlags c1Status true c1Content).1 = false ∧
    (processEpisode c1Status true c1Content c1Env c1Entry c1Now).committed =
      some { title := c1Entry.title, has_description := false,
             has_transcript := false, last_updated := c1Now } := by
  decide

/-- C4 counterexample: in the cluster with titles `🧠abcdefgh` and `xy`
the first title carries the decorative marker and a member title without
the marker exists, yet the marker title is chosen, because the fold of
cleanup_data.py lines 73-76 starts from the first title and only
replaces it by a strictly longer marker-free title. -/
theorem c4_counterexample :
    bestTitle [c4MarkerTitle, c4PlainTitle] = c4MarkerTitle ∧
    brainMarker.isPrefixOf c4MarkerTitle = true ∧
    brainMarker.isPrefixOf c4PlainTitle = false := by
  decide

/-- C3 counterexample: on the input `c3Input` (titles `a b`, `a`, `b`,
`a c`) the pair (`a`, `b`) scores 0 — not above the 0.5 threshold — yet
lands in one cluster, and the pair (`a`, `a c`) scores 1 — above the
threshold — yet lands in different clusters: greedy clustering compares
candidates to the cluster seed only. -/
theorem c3_counterexample :
    cleanupGroups c3Input = [[c3e1, c3e2, c3e3], [c3e4]] ∧
    scoreQ "a".data "b".data = 0 ∧ ¬((1 : ℚ)/2 < scoreQ "a".data "b".data) ∧
    scoreQ "a".data "a c".data = 1 ∧ (1 : ℚ)/2 < scoreQ "a".data "a c".data := by
  have hs1 : scoreQ "a".data "b".data = 0 := by
    have o : overlapCount "a".data "b".data = 0 := by decide
    have l1 : (wordSet "a".data).length = 1 := by decide
    have l2 : (wordSet "b".data).length = 1 := by decide
    simp only [scoreQ, o, l1, l2]
    norm_num
  have hs2 : scoreQ "a".data "a c".data = 1 := by
    have o : overlapCount "a".data "a c".data = 1 := by decide
    have l1 : (wordSet "a".data).length = 1 := by decide
    have l2 : (wordSet "a c".data).length = 2 := by decide
    simp only [scoreQ, o, l1, l2]
    norm_num
  refine ⟨by decide, hs1, ?_, hs2, ?_⟩
  · rw [hs1]; norm_num
  · rw [hs2]; norm_num

/-- C7 counterexample: for the normalized titles `ab` and `ba` the
cleanup pass scores the pair 0 (no shared word), while the claimed
formula `max(wordScore, 0.9 * charScore)` gives 9/10 (their character
sets coincide): the score actually used for identity resolution is not
that formula. -/
theorem c7_counterexample :
    scoreQ "ab".data "ba".data = 0 ∧
    specEffectiveScore "ab".data "ba".data = 9/10 ∧
    scoreQ "ab".data "ba".data ≠ specEffectiveScore "ab".data "ba".data := by
  have hs : scoreQ "ab".data "ba".data = 0 := by
    have o : overlapCount "ab".data "ba".data = 0 := by decide
    have l1 : (wordSet "ab".data).length = 1 := by decide
    have l2 : (wordSet "ba".data).length = 1 := by decide
    simp only [scoreQ, o, l1, l2]
    norm_num
  have hc : specCharScore "ab".data "ba".data = 1 := by
    have hu : (dedupLast (specCharSet "ab".data ++ specCharSet "ba".data)).length = 2 := by
      decide
    have hi : ((specCharSet "ab".data).filter
        (fun c => (specCharSet "ba".data).contains c)).length = 2 := by decide
    simp only [specCharScore, hu, hi]
    norm_num
  have he : specEffectiveScore "ab".data "ba".data = 9/10 := by
    simp only [specEffectiveScore, hs, hc]
    norm_num
  exact ⟨hs, he, by rw [hs, he]; norm_num⟩

/-- C9 counterexample: a run whose description cleans to empty, whose
links section is nonempty, and whose transcript fetch fails writes no
document: the write condition of rss_feed.py line 244 tests only the
description and transcript texts, so a nonempty Links section alone
does not trigger a write, refuting the claim that a document is written
whenever at least one section is nonempty. -/
theorem c9_counterexample :
    (processEpisode none false [] c9Env c8Entry c8Now).written = none ∧
    c9Links.isEmpty = false ∧
    writeHappens [] [] = false := by
  decide

/-- C8: if the manifest records both flags true and the on-disk
document exists, contains the `## Links` heading and is at least 500
characters long, `process_episode` returns at the skip branch: no
browser context is opened, nothing is written, and the manifest is left
unchanged, whatever fetches would have returned. -/
theorem c8_skip_up_to_date :
    ∀ (st : ManifestStatus) (content : List Char) (env : FetchEnv)
      (entry : EpisodeEntry) (now : List Char),
      st.has_description = true → st.has_transcript = true →
      listContains content linksHeading = true → 500 ≤ content.length →
      processEpisode (some st) true content env entry now =
        { outcome := .skippedUpToDate, networkUsed := false,
          written := none, committed := none } := by
  intro st content env entry now hD hT hC hL
  have hlt : ¬(content.length < 500) := by omega
  have hd5 : decide (content.length < 500) = false := by
    simp [hlt]
  have hff : fetchFlags (some st) true content = (false, false) := by
    simp [fetchFlags, hD, hT, hC, hd5]
  simp [processEpisode, hff]

set_option maxRecDepth 40000 in
/-- C8 witness: the skip at a concrete up-to-date episode. -/
theorem c8_skip_up_to_date_witness :
    processEpisode (some c8Status) true c8Content c8Env c8Entry c8Now =
      { outcome := .skippedUpToDate, networkUsed := false,
        written := none, committed := none } :=
  c8_skip_up_to_date c8Status c8Content c8Env c8Entry c8Now rfl rfl (by decide) (by decide)

/-- C9 (amended): the write decision (rss_feed.py line 244) tests
exactly the description and transcript texts; a nonempty description
always puts the `## Description` heading in the assembled document (for
any title, date and links); and on the concrete example — nonempty
description and links, empty transcript — the document carries a
Description heading and no Transcript heading at all, while an empty
description emits no Description heading. -/
theorem c9_document_assembly :
    (∀ d t : List Char, writeHappens d t = (!d.isEmpty || !t.isEmpty)) ∧
    (∀ title published d l : List Char, d ≠ [] →
      descHeading <:+: assembleContent title published d l []) ∧
    listContains (assembleContent c9Title c9Pub c9Desc c9Links []) transHeading = false ∧
    listContains (assembleContent c9Title c9Pub c9Desc c9Links []) descHeading = true ∧
    listContains (assembleContent c9Title c9Pub [] c9Links c9Trans) descHeading = false := by
  refine ⟨fun d t => rfl, ?_, by decide, by decide, by decide⟩
  intro title published d l hd
  have hde : d.isEmpty = false := by
    cases d with
    | nil => exact absurd rfl hd
    | cons a as => rfl
  refine ⟨"# ".data ++ title ++ "\n\n".data ++ "**Published Date:** ".data ++
      published ++ "\n\n".data,
    '\n' :: d ++ "\n\n".data ++
      (if l.isEmpty then [] else linksHeading ++ '\n' :: l ++ "\n\n".data), ?_⟩
  simp only [assembleContent, hde, Bool.false_eq_true, if_false, List.isEmpty_nil,
    if_true, List.append_nil, List.append_assoc, List.cons_append]

/-- C9 witness: the Description heading is an infix of the document
assembled from the concrete inputs. -/
theorem c9_document_assembly_witness :
    descHeading <:+: assembleContent c9Title c9Pub c9Desc c9Links [] :=
  c9_document_assembly.2.1 c9Title c9Pub c9Desc c9Links (by decide)

/-- Every element of `dedupLast l` is an element of `l`. -/
theorem dedupLast_subset {α : Type} [DecidableEq α] {l : List α} {y : α}
    (h : y ∈ dedupLast l) : y ∈ l := by
  induction l with
  | nil => simp [dedupLast] at h
  | cons x xs ih =>
    by_cases hc : xs.contains x = true
    · simp only [dedupLast, hc, if_true] at h
      exact List.mem_cons_of_mem x (ih h)
    · simp only [dedupLast, hc, if_false] at h
      rcases List.mem_cons.mp h with h | h
      · exact h ▸ List.mem_cons_self x xs
      · exact List.mem_cons_of_mem x (ih h)

/-- `dedupLast` produces a list without duplicates. -/
theorem dedupLast_nodup {α : Type} [DecidableEq α] (l : List α) : (dedupLast l).Nodup := by
  induction l with
  | nil => simp [dedupLast]
  | cons x xs ih =>
    by_cases hm : x ∈ xs
    · simp only [dedupLast]
      rw [if_pos (by simpa using hm)]
      exact ih
    · simp only [dedupLast]
      rw [if_neg (by simpa using hm)]
      exact List.nodup_cons.mpr ⟨fun h => hm (dedupLast_subset h), ih⟩

/-- The intersection size never exceeds the first word-set size. -/
theorem overlapCount_le_left (t1 t2 : List Char) :
    overlapCount t1 t2 ≤ (wordSet t1).length :=
  List.length_filter_le _ _

/-- The intersection size never exceeds the second word-set size. -/
theorem overlapCount_le_right (t1 t2 : List Char) :
    overlapCount t1 t2 ≤ (wordSet t2).length := by
  have hnd : ((wordSet t1).filter (fun w => (wordSet t2).contains w)).Nodup :=
    List.Nodup.filter _ (dedupLast_nodup _)
  have hsub : ((wordSet t1).filter (fun w => (wordSet t2).contains w)) ⊆ wordSet t2 := by
    intro w hw
    have := (List.mem_filter.mp hw).2
    simpa using this
  exact (hnd.subperm hsub).length_le

/-- The overlap score, as a rational, lies in the unit interval. -/
theorem scoreQ_bounds (t1 t2 : List Char) : 0 ≤ scoreQ t1 t2 ∧ scoreQ t1 t2 ≤ 1 := by
  unfold scoreQ
  constructor
  · positivity
  · rcases Nat.eq_zero_or_pos (min (wordSet t1).length (wordSet t2).length) with h | h
    · rw [h]
      norm_num
    · rw [div_le_one (by exact_mod_cast h)]
      have : overlapCount t1 t2 ≤ min (wordSet t1).length (wordSet t2).length :=
        le_min (overlapCount_le_left t1 t2) (overlapCount_le_right t1 t2)
      exact_mod_cast this

/-- The boolean pair test of the grouping loop agrees with the rational
score: it is true exactly when both word sets are nonempty and the
overlap score exceeds one half. -/
theorem matchTitles_iff_score (t1 t2 : List Char) :
    matchTitles t1 t2 = true ↔
      wordSet t1 ≠ [] ∧ wordSet t2 ≠ [] ∧ (1 : ℚ)/2 < scoreQ t1 t2 := by
  unfold matchTitles scoreQ
  simp only [Bool.and_eq_true, Bool.not_eq_true', List.isEmpty_eq_false_iff_exists_mem,
    decide_eq_true_eq]
  constructor
  · rintro ⟨⟨⟨w1, hw1⟩, ⟨w2, hw2⟩⟩, hlt⟩
    have h1 : wordSet t1 ≠ [] := List.ne_nil_of_mem hw1
    have h2 : wordSet t2 ≠ [] := List.ne_nil_of_mem hw2
    refine ⟨h1, h2, ?_⟩
    have hm : 0 < min (wordSet t1).length (wordSet t2).length :=
      lt_min (List.length_pos.mpr h1) (List.length_pos.mpr h2)
    rw [div_lt_div_iff₀ (by norm_num) (by exact_mod_cast hm)]
    have h2c : ((min (wordSet t1).length (wordSet t2).length : ℕ) : ℚ)
        < 2 * (overlapCount t1 t2 : ℚ) := by exact_mod_cast hlt
    linarith
  · rintro ⟨h1, h2, hlt⟩
    have hm : 0 < min (wordSet t1).length (wordSet t2).length :=
      lt_min (List.length_pos.mpr h1) (List.length_pos.mpr h2)
    rw [div_lt_div_iff₀ (by norm_num) (by exact_mod_cast hm)] at hlt
    refine ⟨⟨?_, ?_⟩, ?_⟩
    · obtain ⟨w, hw⟩ := List.exists_mem_of_ne_nil _ h1
      exact ⟨w, hw⟩
    · obtain ⟨w, hw⟩ := List.exists_mem_of_ne_nil _ h2
      exact ⟨w, hw⟩
    · have h2c : ((min (wordSet t1).length (wordSet t2).length : ℕ) : ℚ)
          < 2 * (overlapCount t1 t2 : ℚ) := by linarith
      exact_mod_cast h2c

/-- Unfolding the fuelled grouping loop one step. -/
theorem cleanupGroupsGo_cons (f : Nat) (e : List Char × CEntry)
    (rest : List (List Char × CEntry)) :
    cleanupGroupsGo (f + 1) (e :: rest) =
      (e :: (rest.partition (fun e2 => matchTitles e.2.title e2.2.title)).1) ::
        cleanupGroupsGo f (rest.partition (fun e2 => matchTitles e.2.title e2.2.title)).2 :=
  rfl

set_option maxHeartbeats 1000000 in
/-- Every cluster the fuelled grouping loop emits consists of a seed
followed by exactly the entries whose titles matched that seed. -/
theorem cleanupGroupsGo_seed :
    ∀ (fuel : Nat) (l : List (List Char × CEntry)), l.length ≤ fuel →
      ∀ g ∈ cleanupGroupsGo fuel l,
        ∃ e rest, g = e :: rest ∧ ∀ p ∈ rest, matchTitles e.2.title p.2.title = true := by
  intro fuel
  induction fuel with
  | zero =>
    intro l hl g hg
    have : l = [] := List.length_eq_zero.mp (Nat.le_zero.mp hl)
    subst this
    simp [cleanupGroupsGo] at hg
  | succ f ih =>
    intro l hl g hg
    cases l with
    | nil => simp [cleanupGroupsGo] at hg
    | cons e rest =>
      rw [cleanupGroupsGo_cons] at hg
      rcases List.mem_cons.mp hg with hg | hg
      · refine ⟨e, (rest.partition (fun e2 => matchTitles e.2.title e2.2.title)).1, hg, ?_⟩
        intro p hp
        rw [List.partition_eq_filter_filter] at hp
        exact (List.mem_filter.mp hp).2
      · have hlen : (rest.partition (fun e2 => matchTitles e.2.title e2.2.title)).2.length ≤ f := by
          rw [List.partition_eq_filter_filter]
          calc (rest.filter _).length ≤ rest.length := List.length_filter_le _ _
            _ ≤ f := by simpa using Nat.succ_le_succ_iff.mp hl
        exact ih _ hlen g hg

/-- C3 (amended): membership in a cluster is judged against the seed
only — whenever `e :: rest` is a cluster the cleanup pass forms, every
non-seed member scores strictly above 0.5 against the seed title `e`. -/
theorem c3_seed_similarity :
    ∀ (l : List (List Char × CEntry)) (e : List Char × CEntry)
      (rest : List (List Char × CEntry)),
      (e :: rest) ∈ cleanupGroups l →
      ∀ p ∈ rest, (1 : ℚ)/2 < scoreQ e.2.title p.2.title := by
  intro l e rest hmem p hp
  obtain ⟨e', rest', heq, hall⟩ :=
    cleanupGroupsGo_seed l.length l (Nat.le_refl _) (e :: rest) hmem
  obtain ⟨he, hrest⟩ := List.cons.injEq e rest e' rest' ▸ heq
  subst he
  subst hrest
  exact ((matchTitles_iff_score e.2.title p.2.title).mp (hall p hp)).2.2

/-- C3 witness: in the first cluster of the counterexample input the
member `a` scores above 0.5 against the seed `a b`. -/
theorem c3_seed_similarity_witness : (1 : ℚ)/2 < scoreQ c3e1.2.title c3e2.2.title :=
  c3_seed_similarity c3Input c3e1 [c3e2, c3e3] (by decide) c3e2 (by decide)

/-- One fold step either keeps the current best title or switches to a
strictly longer marker-free title. -/
theorem titleStep_cases (best t : List Char) :
    titleStep best t = best ∨
      (titleStep best t = t ∧ brainMarker.isPrefixOf t = false ∧
        best.length < t.length) := by
  unfold titleStep
  split
  · rename_i h
    rw [Bool.and_eq_true, Bool.not_eq_true', decide_eq_true_eq] at h
    exact Or.inr ⟨rfl, h.1, h.2⟩
  · exact Or.inl rfl

/-- The fold result is the initial title or a marker-free member. -/
theorem foldl_titleStep_mem (ts : List (List Char)) :
    ∀ acc : List Char, ts.foldl titleStep acc = acc ∨
      (ts.foldl titleStep acc ∈ ts ∧
        brainMarker.isPrefixOf (ts.foldl titleStep acc) = false) := by
  induction ts with
  | nil => exact fun acc => Or.inl rfl
  | cons u ts ih =>
    intro acc
    rcases titleStep_cases acc u with h | ⟨h, hm, _⟩
    · rw [List.foldl_cons, h]
      rcases ih acc with h' | ⟨h', hm'⟩
      · exact Or.inl h'
      · exact Or.inr ⟨List.mem_cons_of_mem u h', hm'⟩
    · rw [List.foldl_cons, h]
      rcases ih u with h' | ⟨h', hm'⟩
      · rw [h']
        exact Or.inr ⟨List.mem_cons_self u ts, hm⟩
      · exact Or.inr ⟨List.mem_cons_of_mem u h', hm'⟩

/-- The length of the running best title never decreases. -/
theorem foldl_titleStep_le (ts : List (List Char)) :
    ∀ acc : List Char, acc.length ≤ (ts.foldl titleStep acc).length := by
  induction ts with
  | nil => exact fun acc => Nat.le_refl _
  | cons u ts ih =>
    intro acc
    have h1 : acc.length ≤ (titleStep acc u).length := by
      rcases titleStep_cases acc u with h | ⟨h, _, hlen⟩
      · rw [h]
      · rw [h]; exact Nat.le_of_lt hlen
    exact Nat.le_trans h1 (ih (titleStep acc u))

/-- Every marker-free member title is at most as long as the fold
result. -/
theorem foldl_titleStep_max (ts : List (List Char)) :
    ∀ acc : List Char, ∀ t ∈ ts, brainMarker.isPrefixOf t = false →
      t.length ≤ (ts.foldl titleStep acc).length := by
  induction ts with
  | nil => intro acc t ht; exact absurd ht (List.not_mem_nil t)
  | cons u ts ih =>
    intro acc t ht hm
    rcases List.mem_cons.mp ht with rfl | ht'
    · rw [List.foldl_cons]
      refine Nat.le_trans ?_ (foldl_titleStep_le ts (titleStep acc t))
      unfold titleStep
      rw [hm]
      simp only [Bool.not_false, Bool.true_and]
      split
      · exact Nat.le_refl _
      · rename_i h
        exact Nat.le_of_not_lt (by simpa using h)
    · rw [List.foldl_cons]
      exact ih (titleStep acc u) t ht' hm

/-- C4 (amended): the merged title is a member title; it carries the
decorative marker only when it is the first member title; it is at
least as long as every marker-free member title; and whenever some
marker-free member title is strictly longer than the first member
title, the chosen title is marker-free. -/
theorem c4_title_selection :
    ∀ (t0 : List Char) (rest : List (List Char)),
      bestTitle (t0 :: rest) ∈ t0 :: rest ∧
      (bestTitle (t0 :: rest) = t0 ∨
        brainMarker.isPrefixOf (bestTitle (t0 :: rest)) = false) ∧
      (∀ t ∈ t0 :: rest, brainMarker.isPrefixOf t = false →
        t.length ≤ (bestTitle (t0 :: rest)).length) ∧
      ((∃ t ∈ t0 :: rest, brainMarker.isPrefixOf t = false ∧
          t0.length < t.length) →
        brainMarker.isPrefixOf (bestTitle (t0 :: rest)) = false) := by
  intro t0 rest
  have hb : bestTitle (t0 :: rest) = (t0 :: rest).foldl titleStep t0 := rfl
  refine ⟨?_, ?_, ?_, ?_⟩
  · rw [hb]
    rcases foldl_titleStep_mem (t0 :: rest) t0 with h | ⟨h, _⟩
    · rw [h]; exact List.mem_cons_self t0 rest
    · exact h
  · rw [hb]
    rcases foldl_titleStep_mem (t0 :: rest) t0 with h | ⟨_, hm⟩
    · exact Or.inl h
    · exact Or.inr hm
  · intro t ht hm
    rw [hb]
    exact foldl_titleStep_max (t0 :: rest) t0 t ht hm
  · rintro ⟨t, ht, hm, hlen⟩
    rw [hb]
    rcases foldl_titleStep_mem (t0 :: rest) t0 with h | ⟨_, hm'⟩
    · exfalso
      have hmax := foldl_titleStep_max (t0 :: rest) t0 t ht hm
      rw [h] at hmax
      omega
    · exact hm'

/-- C4 witness: with first member `x` and a longer marker-free member
`abc`, the selection facts at that concrete cluster. -/
theorem c4_title_selection_witness :
    bestTitle ["x".data, "abc".data] ∈ ["x".data, "abc".data] ∧
    (bestTitle ["x".data, "abc".data] = "x".data ∨
      brainMarker.isPrefixOf (bestTitle ["x".data, "abc".data]) = false) ∧
    (∀ t ∈ ["x".data, "abc".data], brainMarker.isPrefixOf t = false →
      t.length ≤ (bestTitle ["x".data, "abc".data]).length) ∧
    ((∃ t ∈ ["x".data, "abc".data], brainMarker.isPrefixOf t = false ∧
        ("x".data).length < t.length) →
      brainMarker.isPrefixOf (bestTitle ["x".data, "abc".data]) = false) :=
  c4_title_selection "x".data ["abc".data]

/-- C7 (amended): the score identity resolution uses is the word
overlap coefficient alone: it lies in the unit interval, a pair with an
empty word set on either side is never matched, and the boolean pair
test is exactly the comparison of that word score with one half — not
the formula `max(wordScore, 0.9 * charScore)`. -/
theorem c7_score_properties :
    (∀ t1 t2 : List Char, 0 ≤ scoreQ t1 t2 ∧ scoreQ t1 t2 ≤ 1) ∧
    (∀ t1 t2 : List Char, wordSet t1 = [] ∨ wordSet t2 = [] →
      matchTitles t1 t2 = false) ∧
    (∀ t1 t2 : List Char, matchTitles t1 t2 = true ↔
      wordSet t1 ≠ [] ∧ wordSet t2 ≠ [] ∧ (1 : ℚ)/2 < scoreQ t1 t2) := by
  refine ⟨scoreQ_bounds, ?_, matchTitles_iff_score⟩
  intro t1 t2 h
  cases hmt : matchTitles t1 t2 with
  | false => rfl
  | true =>
    exfalso
    rcases (matchTitles_iff_score t1 t2).mp hmt with ⟨h1, h2, _⟩
    rcases h with h | h
    · exact h1 h
    · exact h2 h

/-- C7 witness: the score bounds at one concrete pair and the skipped
match at a pair whose first normalized title is empty. -/
theorem c7_score_properties_witness :
    (0 ≤ scoreQ "a".data "b".data ∧ scoreQ "a".data "b".data ≤ 1) ∧
    matchTitles "?".data "x".data = false :=
  ⟨c7_score_properties.1 "a".data "b".data,
   c7_score_properties.2.1 "?".data "x".data (Or.inl (by decide))⟩

/-- The splitter never returns an empty chunk list. -/
theorem splitP_ne_nil (p : Char → Bool) (s : List Char) : splitP p s ≠ [] := by
  cases s with
  | nil => simp [splitP]
  | cons c rest =>
    unfold splitP
    split
    · simp
    · cases h : splitP p rest with
      | nil => simp
      | cons t ts => simp

/-- No chunk the splitter returns contains a separator character. -/
theorem splitP_chars (p : Char → Bool) (s : List Char) :
    ∀ t ∈ splitP p s, ∀ c ∈ t, p c = false := by
  induction s with
  | nil =>
    intro t ht c hc
    simp [splitP] at ht
    subst ht
    exact absurd hc (List.not_mem_nil c)
  | cons x rest ih =>
    intro t ht c hc
    unfold splitP at ht
    by_cases hx : p x = true
    · rw [if_pos hx] at ht
      rcases List.mem_cons.mp ht with rfl | ht'
      · exact absurd hc (List.not_mem_nil c)
      · exact ih t ht' c hc
    · rw [if_neg hx] at ht
      rcases hsp : splitP p rest with _ | ⟨u, us⟩
      · exact absurd hsp (splitP_ne_nil p rest)
      · rw [hsp] at ht
        rcases List.mem_cons.mp ht with rfl | ht'
        · rcases List.mem_cons.mp hc with rfl | hc'
          · exact Bool.eq_false_iff.mpr hx
          · exact ih u (hsp ▸ List.mem_cons_self u us) c hc'
        · exact ih t (hsp ▸ List.mem_cons_of_mem u ht') c hc

/-- Every character of a chunk is a character of the split input. -/
theorem splitP_chars_mem (p : Char → Bool) (s : List Char) :
    ∀ t ∈ splitP p s, ∀ c ∈ t, c ∈ s := by
  induction s with
  | nil =>
    intro t ht c hc
    simp [splitP] at ht
    subst ht
    exact absurd hc (List.not_mem_nil c)
  | cons x rest ih =>
    intro t ht c hc
    unfold splitP at ht
    by_cases hx : p x = true
    · rw [if_pos hx] at ht
      rcases List.mem_cons.mp ht with rfl | ht'
      · exact absurd hc (List.not_mem_nil c)
      · exact List.mem_cons_of_mem x (ih t ht' c hc)
    · rw [if_neg hx] at ht
      rcases hsp : splitP p rest with _ | ⟨u, us⟩
      · exact absurd hsp (splitP_ne_nil p rest)
      · rw [hsp] at ht
        rcases List.mem_cons.mp ht with rfl | ht'
        · rcases List.mem_cons.mp hc with rfl | hc'
          · exact List.mem_cons_self c rest
          · exact List.mem_cons_of_mem x (ih u (hsp ▸ List.mem_cons_self u us) c hc')
        · exact List.mem_cons_of_mem x (ih t (hsp ▸ List.mem_cons_of_mem u ht') c hc)

/-- A list without separators splits to the single chunk it is. -/
theorem splitP_no_sep (p : Char → Bool) (w : List Char)
    (h : ∀ c ∈ w, p c = false) : splitP p w = [w] := by
  induction w with
  | nil => rfl
  | cons c rest ih =>
    have hc : p c = false := h c (List.mem_cons_self c rest)
    have hrest : splitP p rest = [rest] :=
      ih (fun d hd => h d (List.mem_cons_of_mem c hd))
    unfold splitP
    rw [if_neg (by simp [hc]), hrest]

/-- Splitting a separator-free block followed by a separator and a tail
yields the block and then the split of the tail. -/
theorem splitP_append_sep (p : Char → Bool) (a b : List Char) (c : Char)
    (ha : ∀ d ∈ a, p d = false) (hc : p c = true) :
    splitP p (a ++ c :: b) = a :: splitP p b := by
  induction a with
  | nil =>
    simp only [List.nil_append, splitP]
    rw [if_pos hc]
  | cons d a' ih =>
    have hd : p d = false := ha d (List.mem_cons_self d a')
    have ha' : ∀ e ∈ a', p e = false := fun e he => ha e (List.mem_cons_of_mem d he)
    simp only [List.cons_append, splitP]
    rw [if_neg (by simp [hd])]
    simp only [List.append_eq]
    rw [ih ha']

/-- Every word `splitWords` returns is nonempty and whitespace-free. -/
theorem splitWords_good (s : List Char) :
    ∀ w ∈ splitWords s, w ≠ [] ∧ ∀ c ∈ w, isWs c = false := by
  intro w hw
  unfold splitWords at hw
  have hmem := List.mem_filter.mp hw
  refine ⟨?_, splitP_chars isWs s w hmem.1⟩
  intro hnil
  subst hnil
  simp at hmem

/-- Every character of a word of `splitWords s` is a character of `s`. -/
theorem splitWords_chars_mem (s : List Char) :
    ∀ w ∈ splitWords s, ∀ c ∈ w, c ∈ s := by
  intro w hw
  unfold splitWords at hw
  exact splitP_chars_mem isWs s w (List.mem_filter.mp hw).1

/-- Splitting the space-joined list of nonempty whitespace-free words
recovers exactly those words. -/
theorem splitWords_pyJoin (ws : List (List Char))
    (h : ∀ w ∈ ws, w ≠ [] ∧ ∀ c ∈ w, isWs c = false) :
    splitWords (pyJoin ' ' ws) = ws := by
  induction ws with
  | nil => rfl
  | cons w ws' ih =>
    rcases h w (List.mem_cons_self w ws') with ⟨hw, hwc⟩
    have hwc' : ∀ c ∈ w, isWs c = false := hwc
    cases ws' with
    | nil =>
      show splitWords (pyJoin ' ' [w]) = [w]
      unfold pyJoin splitWords
      rw [splitP_no_sep isWs w hwc']
      simp [hw]
    | cons w2 ws'' =>
      have hrest : ∀ u ∈ w2 :: ws'', u ≠ [] ∧ ∀ c ∈ u, isWs c = false :=
        fun u hu => h u (List.mem_cons_of_mem w hu)
      have hj : pyJoin ' ' (w :: w2 :: ws'') = w ++ ' ' :: pyJoin ' ' (w2 :: ws'') := rfl
      rw [hj]
      unfold splitWords
      rw [splitP_append_sep isWs w (pyJoin ' ' (w2 :: ws'')) ' ' hwc' (by decide)]
      have ihr : splitWords (pyJoin ' ' (w2 :: ws'')) = w2 :: ws'' := ih hrest
      unfold splitWords at ihr
      simp only [List.filter_cons]
      rw [ihr]
      simp [hw]

/-- A successful lookup returns one of the stored values. -/
theorem lookup_val_mem {α β : Type} [DecidableEq α] (ps : List (α × β)) (a : α) (b : β)
    (h : List.lookup a ps = some b) : b ∈ ps.map Prod.snd := by
  induction ps with
  | nil => simp [List.lookup] at h
  | cons p ps' ih =>
    rw [List.lookup] at h
    cases hbe : (a == p.1) with
    | true =>
      simp only [hbe] at h
      cases h
      simp
    | false =>
      simp only [hbe] at h
      exact List.mem_cons_of_mem _ (ih h)

/-- A successful lookup happens at one of the stored keys. -/
theorem lookup_key_mem {α β : Type} [DecidableEq α] (ps : List (α × β)) (a : α) (b : β)
    (h : List.lookup a ps = some b) : a ∈ ps.map Prod.fst := by
  induction ps with
  | nil => simp [List.lookup] at h
  | cons p ps' ih =>
    rw [List.lookup] at h
    cases hbe : (a == p.1) with
    | true =>
      exact List.mem_cons.mpr (Or.inl (eq_of_beq hbe))
    | false =>
      simp only [hbe] at h
      exact List.mem_cons_of_mem _ (ih h)

/-- No lowercase-table value is itself a key of the table. -/
theorem lowerPairs_val_none : ∀ b ∈ lowerPairs.map Prod.snd, List.lookup b lowerPairs = none := by
  decide

/-- No lowercase-table value is whitespace. -/
theorem lowerPairs_val_not_ws : ∀ b ∈ lowerPairs.map Prod.snd, isWs b = false := by decide

/-- No lowercase-table key is whitespace. -/
theorem lowerPairs_key_not_ws : ∀ a ∈ lowerPairs.map Prod.fst, isWs a = false := by decide

/-- No lowercase-table value is a stripped quote character. -/
theorem lowerPairs_val_keep_quotes :
    ∀ b ∈ lowerPairs.map Prod.snd, (!strippedQuoteChars.contains b) = true := by decide

/-- No lowercase-table value is a filesystem-unsafe character. -/
theorem lowerPairs_val_keep_unsafe :
    ∀ b ∈ lowerPairs.map Prod.snd, (!unsafeFileChars.contains b) = true := by decide

/-- The value of `lowerChar` at a character missing from the table. -/
theorem lowerChar_of_lookup_none (c : Char) (h : List.lookup c lowerPairs = none) :
    lowerChar c = c := by
  unfold lowerChar
  rw [h]
  rfl

/-- The value of `lowerChar` at a character present in the table. -/
theorem lowerChar_of_lookup_some (c b : Char) (h : List.lookup c lowerPairs = some b) :
    lowerChar c = b := by
  unfold lowerChar
  rw [h]
  rfl

/-- Lowercasing is idempotent. -/
theorem lowerChar_idem (c : Char) : lowerChar (lowerChar c) = lowerChar c := by
  cases h : List.lookup c lowerPairs with
  | none =>
    rw [lowerChar_of_lookup_none c h]
    exact lowerChar_of_lookup_none c h
  | some b =>
    rw [lowerChar_of_lookup_some c b h]
    exact lowerChar_of_lookup_none b
      (lowerPairs_val_none b (lookup_val_mem lowerPairs c b h))

/-- Lowercasing preserves the whitespace class. -/
theorem lowerChar_ws (c : Char) : isWs (lowerChar c) = isWs c := by
  cases h : List.lookup c lowerPairs with
  | none => rw [lowerChar_of_lookup_none c h]
  | some b =>
    rw [lowerChar_of_lookup_some c b h]
    rw [lowerPairs_val_not_ws b (lookup_val_mem lowerPairs c b h),
      lowerPairs_key_not_ws c (lookup_key_mem lowerPairs c b h)]

/-- The space character is already lowercase. -/
theorem lowerChar_space : lowerChar ' ' = ' ' := by decide

/-- Lowercasing never produces one of the stripped quote characters. -/
theorem lowerChar_keeps_quotes (c : Char)
    (h : (!strippedQuoteChars.contains c) = true) :
    (!strippedQuoteChars.contains (lowerChar c)) = true := by
  cases hl : List.lookup c lowerPairs with
  | none => rw [lowerChar_of_lookup_none c hl]; exact h
  | some b =>
    rw [lowerChar_of_lookup_some c b hl]
    exact lowerPairs_val_keep_quotes b (lookup_val_mem lowerPairs c b hl)

/-- Lowercasing never produces a filesystem-unsafe character. -/
theorem lowerChar_keeps_unsafe (c : Char)
    (h : (!unsafeFileChars.contains c) = true) :
    (!unsafeFileChars.contains (lowerChar c)) = true := by
  cases hl : List.lookup c lowerPairs with
  | none => rw [lowerChar_of_lookup_none c hl]; exact h
  | some b =>
    rw [lowerChar_of_lookup_some c b hl]
    exact lowerPairs_val_keep_unsafe b (lookup_val_mem lowerPairs c b hl)

/-- The join of nonempty words is nonempty when the word list is. -/
theorem pyJoin_ne_nil (sep : Char) (w : List Char) (ws : List (List Char))
    (hw : w ≠ []) : pyJoin sep (w :: ws) ≠ [] := by
  cases ws with
  | nil => exact hw
  | cons w2 ws' =>
    show w ++ sep :: pyJoin sep (w2 :: ws') ≠ []
    exact List.append_ne_nil_of_left_ne_nil hw _

/-- The first character of a space-join of good words is not whitespace. -/
theorem pyJoin_head_not_ws (ws : List (List Char))
    (h : ∀ w ∈ ws, w ≠ [] ∧ ∀ c ∈ w, isWs c = false) :
    ∀ c : Char, (pyJoin ' ' ws).head? = some c → isWs c = false := by
  intro c hc
  cases ws with
  | nil => simp [pyJoin] at hc
  | cons w ws' =>
    rcases h w (List.mem_cons_self w ws') with ⟨hw, hwc⟩
    have hhead : (pyJoin ' ' (w :: ws')).head? = w.head? := by
      cases ws' with
      | nil => rfl
      | cons w2 ws'' =>
        show (w ++ ' ' :: pyJoin ' ' (w2 :: ws'')).head? = w.head?
        exact List.head?_append_of_ne_nil w hw
    rw [hhead] at hc
    exact hwc c (List.mem_of_mem_head? (Option.mem_def.mpr hc))

/-- The last character of a space-join of good words is not whitespace. -/
theorem pyJoin_getLast_not_ws (ws : List (List Char))
    (h : ∀ w ∈ ws, w ≠ [] ∧ ∀ c ∈ w, isWs c = false) :
    ∀ c : Char, (pyJoin ' ' ws).getLast? = some c → isWs c = false := by
  induction ws with
  | nil => intro c hc; simp [pyJoin] at hc
  | cons w ws' ih =>
    intro c hc
    rcases h w (List.mem_cons_self w ws') with ⟨hw, hwc⟩
    cases ws' with
    | nil =>
      have hc' : w.getLast? = some c := hc
      exact hwc c (List.mem_of_mem_getLast? (Option.mem_def.mpr hc'))
    | cons w2 ws'' =>
      have hrest : ∀ u ∈ w2 :: ws'', u ≠ [] ∧ ∀ d ∈ u, isWs d = false :=
        fun u hu => h u (List.mem_cons_of_mem w hu)
      have hjne : pyJoin ' ' (w2 :: ws'') ≠ [] :=
        pyJoin_ne_nil ' ' w2 ws'' (hrest w2 (List.mem_cons_self w2 ws'')).1
      have hj : pyJoin ' ' (w :: w2 :: ws'') = w ++ ' ' :: pyJoin ' ' (w2 :: ws'') := rfl
      rw [hj, List.getLast?_append] at hc
      cases hx : (pyJoin ' ' (w2 :: ws'')).getLast? with
      | none => exact absurd (List.getLast?_eq_none_iff.mp hx) hjne
      | some x =>
        have hcons : (' ' :: pyJoin ' ' (w2 :: ws'')).getLast? = some x := by
          have hsplit : (' ' :: pyJoin ' ' (w2 :: ws'')) =
              [' '] ++ pyJoin ' ' (w2 :: ws'') := rfl
          rw [hsplit, List.getLast?_append, hx]
          rfl
        rw [hcons] at hc
        have hxc : some x = some c := hc
        injection hxc with hxc2
        subst hxc2
        exact ih hrest _ hx

/-- Dropping a leading run is a no-op when the head fails the test. -/
theorem dropWhile_eq_self_of_head (p : Char → Bool) (x : List Char)
    (h : ∀ c : Char, x.head? = some c → p c = false) : x.dropWhile p = x := by
  cases x with
  | nil => rfl
  | cons c cs =>
    rw [List.dropWhile_cons, if_neg (by simp [h c rfl])]

/-- Stripping a space-join of good words is a no-op: it neither starts
nor ends with whitespace. -/
theorem pyStrip_pyJoin (ws : List (List Char))
    (h : ∀ w ∈ ws, w ≠ [] ∧ ∀ c ∈ w, isWs c = false) :
    pyStrip (pyJoin ' ' ws) = pyJoin ' ' ws := by
  have d1 : (pyJoin ' ' ws).dropWhile isWs = pyJoin ' ' ws :=
    dropWhile_eq_self_of_head isWs _ (pyJoin_head_not_ws ws h)
  have d2 : (pyJoin ' ' ws).reverse.dropWhile isWs = (pyJoin ' ' ws).reverse :=
    dropWhile_eq_self_of_head isWs _ (by
      intro c hc
      rw [List.head?_reverse] at hc
      exact pyJoin_getLast_not_ws ws h c hc)
  unfold pyStrip
  rw [d1, d2, List.reverse_reverse]

/-- Mapping a separator-class-preserving function commutes with the
splitter. -/
theorem splitP_map (p : Char → Bool) (f : Char → Char)
    (hp : ∀ c : Char, p (f c) = p c) (s : List Char) :
    splitP p (s.map f) = (splitP p s).map (List.map f) := by
  induction s with
  | nil => rfl
  | cons c rest ih =>
    simp only [List.map_cons, splitP, hp c]
    by_cases hc : p c = true
    · rw [if_pos hc, if_pos hc, ih]
      rfl
    · rw [if_neg hc, if_neg hc, ih]
      rcases hsp : splitP p rest with _ | ⟨t, ts⟩
      · exact absurd hsp (splitP_ne_nil p rest)
      · rfl

/-- Mapping a whitespace-class-preserving function commutes with word
splitting. -/
theorem splitWords_map (f : Char → Char) (hp : ∀ c : Char, isWs (f c) = isWs c)
    (s : List Char) : splitWords (s.map f) = (splitWords s).map (List.map f) := by
  unfold splitWords
  rw [splitP_map isWs f hp s, List.filter_map]
  congr 1
  apply List.filter_congr
  intro w _
  cases w <;> rfl

/-- Mapping a space-fixing function commutes with the space-join. -/
theorem pyJoin_map (f : Char → Char) (hf : f ' ' = ' ') (ws : List (List Char)) :
    pyJoin ' ' (ws.map (List.map f)) = List.map f (pyJoin ' ' ws) := by
  induction ws with
  | nil => rfl
  | cons w ws' ih =>
    cases ws' with
    | nil => rfl
    | cons w2 ws'' =>
      show List.map f w ++ ' ' :: pyJoin ' ' ((w2 :: ws'').map (List.map f)) =
        List.map f (w ++ ' ' :: pyJoin ' ' (w2 :: ws''))
      rw [ih, List.map_append, List.map_cons, hf]

/-- Mapping a whitespace-class-preserving function commutes with
stripping. -/
theorem pyStrip_map (f : Char → Char) (hp : ∀ c : Char, isWs (f c) = isWs c)
    (x : List Char) : pyStrip (x.map f) = (pyStrip x).map f := by
  have hpe : (isWs ∘ f) = isWs := funext hp
  have hdw : ∀ y : List Char, (y.map f).dropWhile isWs = (y.dropWhile isWs).map f := by
    intro y
    rw [List.dropWhile_map, hpe]
  unfold pyStrip
  rw [hdw, ← List.map_reverse, hdw, List.map_reverse]

/-- Unfolding `normalizeTitle` on a nonempty string. -/
theorem normalizeTitle_some_eq (s : List Char) (hs : s.isEmpty = false) :
    normalizeTitle (some s) =
      (pyStrip (pyJoin ' ' (splitWords
        ((s.filter (fun c => !strippedQuoteChars.contains c)).filter
          (fun c => !unsafeFileChars.contains c))))).map lowerChar := by
  simp only [normalizeTitle, hs]
  rfl

/-- Every character of a space-join is the separator or a character of
one of the words. -/
theorem pyJoin_chars (sep : Char) (ws : List (List Char)) :
    ∀ c ∈ pyJoin sep ws, c = sep ∨ ∃ w ∈ ws, c ∈ w := by
  induction ws with
  | nil => intro c hc; exact absurd hc (List.not_mem_nil c)
  | cons w ws' ih =>
    intro c hc
    cases ws' with
    | nil =>
      exact Or.inr ⟨w, List.mem_cons_self w [], hc⟩
    | cons w2 ws'' =>
      have hj : pyJoin sep (w :: w2 :: ws'') = w ++ sep :: pyJoin sep (w2 :: ws'') := rfl
      rw [hj] at hc
      rcases List.mem_append.mp hc with hc | hc
      · exact Or.inr ⟨w, List.mem_cons_self w _, hc⟩
      · rcases List.mem_cons.mp hc with rfl | hc'
        · exact Or.inl rfl
        · rcases ih c hc' with h | ⟨u, hu, hcu⟩
          · exact Or.inl h
          · exact Or.inr ⟨u, List.mem_cons_of_mem w hu, hcu⟩

/-- The canonical form of every normalizer output: a space-join of
nonempty words whose characters are non-whitespace, lowercase-fixed and
free of the stripped and unsafe characters. -/
theorem normalizeTitle_canonical (t : Option (List Char)) :
    ∃ ws : List (List Char),
      (∀ w ∈ ws, w ≠ [] ∧ ∀ c ∈ w, isWs c = false ∧ lowerChar c = c ∧
        (!strippedQuoteChars.contains c) = true ∧
        (!unsafeFileChars.contains c) = true) ∧
      normalizeTitle t = pyJoin ' ' ws := by
  cases t with
  | none => exact ⟨[], by simp, rfl⟩
  | some s =>
    cases hs : s.isEmpty with
    | true =>
      refine ⟨[], by simp, ?_⟩
      have : s = [] := by
        cases s with
        | nil => rfl
        | cons a as => simp at hs
      subst this
      rfl
    | false =>
      set u := (s.filter (fun c => !strippedQuoteChars.contains c)).filter
          (fun c => !unsafeFileChars.contains c) with hu
      have hgood : ∀ w ∈ splitWords u, w ≠ [] ∧ ∀ c ∈ w, isWs c = false :=
        splitWords_good u
      refine ⟨(splitWords u).map (List.map lowerChar), ?_, ?_⟩
      · intro w' hw'
        obtain ⟨w, hw, rfl⟩ := List.mem_map.mp hw'
        rcases hgood w hw with ⟨hwne, hwc⟩
        constructor
        · intro hnil
          exact hwne (List.map_eq_nil_iff.mp hnil)
        · intro c' hc'
          obtain ⟨c, hc, rfl⟩ := List.mem_map.mp hc'
          have hcu : c ∈ u := splitWords_chars_mem u w hw c hc
          have hq : (!strippedQuoteChars.contains c) = true := by
            have := List.mem_filter.mp (hu ▸ hcu)
            exact (List.mem_filter.mp this.1).2
          have hunsafe : (!unsafeFileChars.contains c) = true := by
            have := List.mem_filter.mp (hu ▸ hcu)
            exact this.2
          refine ⟨?_, lowerChar_idem c, lowerChar_keeps_quotes c hq,
            lowerChar_keeps_unsafe c hunsafe⟩
          rw [lowerChar_ws c]
          exact hwc c hc
      · rw [normalizeTitle_some_eq s hs, ← hu,
          pyStrip_pyJoin (splitWords u) hgood,
          ← pyJoin_map lowerChar lowerChar_space (splitWords u)]

/-- The normalizer fixes every string already in canonical form. -/
theorem normalizeTitle_pyJoin_fixed (ws : List (List Char))
    (h : ∀ w ∈ ws, w ≠ [] ∧ ∀ c ∈ w, isWs c = false ∧ lowerChar c = c ∧
      (!strippedQuoteChars.contains c) = true ∧
      (!unsafeFileChars.contains c) = true) :
    normalizeTitle (some (pyJoin ' ' ws)) = pyJoin ' ' ws := by
  cases ws with
  | nil => rfl
  | cons w ws' =>
    have hrne : pyJoin ' ' (w :: ws') ≠ [] :=
      pyJoin_ne_nil ' ' w ws' (h w (List.mem_cons_self w ws')).1
    have hre : (pyJoin ' ' (w :: ws')).isEmpty = false := by
      cases hr0 : pyJoin ' ' (w :: ws') with
      | nil => exact absurd hr0 hrne
      | cons _ _ => rfl
    have hAll : ∀ c ∈ pyJoin ' ' (w :: ws'), lowerChar c = c ∧
        (!strippedQuoteChars.contains c) = true ∧
        (!unsafeFileChars.contains c) = true := by
      intro c hc
      rcases pyJoin_chars ' ' (w :: ws') c hc with rfl | ⟨u, hu, hcu⟩
      · exact ⟨lowerChar_space, by decide, by decide⟩
      · rcases (h u hu).2 c hcu with ⟨_, hl, hq, hf⟩
        exact ⟨hl, hq, hf⟩
    have hf1 : (pyJoin ' ' (w :: ws')).filter (fun c => !strippedQuoteChars.contains c) =
        pyJoin ' ' (w :: ws') :=
      List.filter_eq_self.mpr (fun c hc => (hAll c hc).2.1)
    have hf2 : (pyJoin ' ' (w :: ws')).filter (fun c => !unsafeFileChars.contains c) =
        pyJoin ' ' (w :: ws') :=
      List.filter_eq_self.mpr (fun c hc => (hAll c hc).2.2)
    have hgood' : ∀ u ∈ w :: ws', u ≠ [] ∧ ∀ c ∈ u, isWs c = false :=
      fun u hu => ⟨(h u hu).1, fun c hc => ((h u hu).2 c hc).1⟩
    have hsw : splitWords (pyJoin ' ' (w :: ws')) = w :: ws' :=
      splitWords_pyJoin _ hgood'
    have hmap : (pyJoin ' ' (w :: ws')).map lowerChar = pyJoin ' ' (w :: ws') := by
      calc (pyJoin ' ' (w :: ws')).map lowerChar
          = (pyJoin ' ' (w :: ws')).map id :=
            List.map_congr_left (fun c hc => (hAll c hc).1)
        _ = pyJoin ' ' (w :: ws') := List.map_id _
    rw [normalizeTitle_some_eq _ hre, hf1, hf2, hsw, pyStrip_pyJoin _ hgood']
    exact hmap

/-- A space-free list has no two adjacent spaces. -/
theorem chain_no_space (w : List Char) (h : ∀ c ∈ w, c ≠ ' ') :
    List.Chain' (fun a b => ¬(a = ' ' ∧ b = ' ')) w := by
  induction w with
  | nil => exact List.chain'_nil
  | cons a w' ih =>
    cases w' with
    | nil => exact List.chain'_singleton a
    | cons b w'' =>
      refine List.chain'_cons.mpr
        ⟨?_, ih (fun c hc => h c (List.mem_cons_of_mem a hc))⟩
      intro hab
      exact h a (List.mem_cons_self a _) hab.1

/-- A space-join of nonempty whitespace-free words never contains two
adjacent spaces. -/
theorem chain_pyJoin (ws : List (List Char))
    (h : ∀ w ∈ ws, w ≠ [] ∧ ∀ c ∈ w, isWs c = false) :
    List.Chain' (fun a b => ¬(a = ' ' ∧ b = ' ')) (pyJoin ' ' ws) := by
  induction ws with
  | nil => exact List.chain'_nil
  | cons w ws' ih =>
    have hwno : ∀ c ∈ w, c ≠ ' ' := by
      intro c hc heq
      have hws := (h w (List.mem_cons_self w ws')).2 c hc
      rw [heq] at hws
      exact absurd hws (by decide)
    cases ws' with
    | nil => exact chain_no_space w hwno
    | cons w2 ws'' =>
      have hrest : ∀ u ∈ w2 :: ws'', u ≠ [] ∧ ∀ c ∈ u, isWs c = false :=
        fun u hu => h u (List.mem_cons_of_mem w hu)
      have hj : pyJoin ' ' (w :: w2 :: ws'') = w ++ ' ' :: pyJoin ' ' (w2 :: ws'') := rfl
      rw [hj]
      refine List.chain'_append.mpr ⟨chain_no_space w hwno, ?_, ?_⟩
      · refine List.chain'_cons'.mpr ⟨?_, ih hrest⟩
        intro y hy hxy
        have hyws : isWs y = false :=
          pyJoin_head_not_ws _ hrest y (Option.mem_def.mp hy)
        rw [hxy.2] at hyws
        exact absurd hyws (by decide)
      · intro x hx y hy hxy
        exact hwno x (List.mem_of_mem_getLast? hx) hxy.1

/-- C10: the title normalizer is idempotent on every input (including
`None` and the empty string), and its output is fully lowercase (fixed
by lowercasing), free of the filesystem-unsafe characters and of the
stripped quote characters, and never contains two adjacent spaces. -/
theorem c10_normalize_properties :
    (∀ t : Option (List Char),
      normalizeTitle (some (normalizeTitle t)) = normalizeTitle t) ∧
    (∀ (t : Option (List Char)) (c : Char), c ∈ normalizeTitle t →
      lowerChar c = c ∧ (!unsafeFileChars.contains c) = true ∧
      (!strippedQuoteChars.contains c) = true) ∧
    (∀ t : Option (List Char),
      List.Chain' (fun a b => ¬(a = ' ' ∧ b = ' ')) (normalizeTitle t)) := by
  refine ⟨?_, ?_, ?_⟩
  · intro t
    obtain ⟨ws, hg, heq⟩ := normalizeTitle_canonical t
    rw [heq]
    exact normalizeTitle_pyJoin_fixed ws hg
  · intro t c hc
    obtain ⟨ws, hg, heq⟩ := normalizeTitle_canonical t
    rw [heq] at hc
    rcases pyJoin_chars ' ' ws c hc with rfl | ⟨u, hu, hcu⟩
    · exact ⟨lowerChar_space, by decide, by decide⟩
    · rcases (hg u hu).2 c hcu with ⟨_, hl, hq, hf⟩
      exact ⟨hl, hf, hq⟩
  · intro t
    obtain ⟨ws, hg, heq⟩ := normalizeTitle_canonical t
    rw [heq]
    exact chain_pyJoin ws
      (fun w hw => ⟨(hg w hw).1, fun c hc => ((hg w hw).2 c hc).1⟩)

/-- C10 witness: idempotence at a concrete messy title and the
character facts at a concrete output character. -/
theorem c10_normalize_properties_witness :
    normalizeTitle (some (normalizeTitle (some "  AB  cd ".data))) =
      normalizeTitle (some "  AB  cd ".data) ∧
    (lowerChar 'a' = 'a' ∧ (!unsafeFileChars.contains 'a') = true ∧
      (!strippedQuoteChars.contains 'a') = true) :=
  ⟨c10_normalize_properties.1 (some "  AB  cd ".data),
   c10_normalize_properties.2.1 (some "  AB  cd ".data) 'a' (by decide)⟩
